import Mathlib

/-!
# Verification of the telegram-mx-automation repository

This file gives a shallow embedding, in Lean 4, of the three source files of
the repository:

* `src/apps_script.gs` — the Google Apps Script ledger endpoint (`doPost`),
* `src/server.js` — an earlier revision of the Express webhook server
  (optional shared-secret check, a textual "dislike" token accepted as a
  reject reaction, `null`-able candidate timestamps in the sort comparator),
* `src/unnamed/part_000` — the current, minimal revision of the webhook
  server (`extractBarcode`, `analyzeReactions`, the `/webhook` handler).

Strings are modelled as `List Char` (JavaScript strings are sequences of
UTF-16 units; all the string operations used by the code — trimming,
substring containment of well-formed emoji, equality — coincide with the
code-point–level operations modelled here on well-formed text).
JavaScript `undefined`/`null` field values are modelled with `Option`;
JavaScript truthiness of a string is emptiness of the underlying list, and
truthiness of a number is being nonzero.  Node's `Array.prototype.sort`
(stable since ES2019) is modelled by a stable insertion sort.
-/

namespace TgMx

/-- Strings of the JavaScript program, as lists of code points. -/
abbrev Str := List Char

/-- `String.prototype.trim`: remove whitespace from both ends. -/
def trim (s : Str) : Str :=
  ((s.dropWhile Char.isWhitespace).reverse.dropWhile Char.isWhitespace).reverse

/-- Substring containment, the semantics of JavaScript
`s.indexOf(pat) !== -1` / `s.includes(pat)`. -/
def hasInfix (pat : Str) : Str → Bool
  | [] => pat.isEmpty
  | c :: t => pat.isPrefixOf (c :: t) || hasInfix pat t

theorem hasInfix_iff (pat s : Str) : hasInfix pat s = true ↔ pat <:+: s := by
  induction s with
  | nil => simp [hasInfix, List.isEmpty_iff]
  | cons c t ih =>
    simp only [hasInfix, Bool.or_eq_true, List.isPrefixOf_iff_prefix, ih,
      List.infix_cons_iff]

/-! ## Barcode extraction (`extractBarcode` in `server.js` / `part_000`)

Both revisions apply the regular expression `/\d{11,13}/` to the text and
return the first match, or `null` when the text is empty/absent or there is
no match.  JavaScript regex matching is leftmost-first: the match starts at
the first position from which at least 11 consecutive digits follow, and the
greedy quantifier then takes up to 13 of them. -/

/-- The longest prefix of digits (the digits the greedy `\d{11,13}` sees
from a given position). -/
def takeDigits : Str → Str
  | [] => []
  | c :: t => if c.isDigit then c :: takeDigits t else []

/-- `extractBarcode` from `server.js`/`part_000`: scan left to right; at the
first position followed by at least 11 consecutive digits, return those
digits truncated to 13 (the greedy match of `/\d{11,13}/`); otherwise
`null`. -/
def extractBarcode : Str → Option Str
  | [] => none
  | c :: t =>
    let run := takeDigits (c :: t)
    if 11 ≤ run.length then some (run.take 13) else extractBarcode t

/-- Helper for `digitRuns`: returns the leading digit prefix of the text
together with the maximal digit runs of the text after that prefix. -/
def digitRunsCore : Str → Str × List Str
  | [] => ([], [])
  | c :: t =>
    let p := digitRunsCore t
    if c.isDigit then (c :: p.1, p.2)
    else ([], if p.1.isEmpty then p.2 else p.1 :: p.2)

/-- The maximal runs of consecutive digits of a text, in order of
appearance.  This is the specification-side notion used to state the claims
about `extractBarcode`. -/
def digitRuns (s : Str) : List Str :=
  let p := digitRunsCore s
  if p.1.isEmpty then p.2 else p.1 :: p.2

theorem takeDigits_cons (c : Char) (t : Str) :
    takeDigits (c :: t) = if c.isDigit then c :: takeDigits t else [] := rfl

theorem digitRunsCore_fst (s : Str) : (digitRunsCore s).1 = takeDigits s := by
  induction s with
  | nil => rfl
  | cons c t ih =>
    simp only [digitRunsCore, takeDigits]
    by_cases hc : c.isDigit = true <;> simp [hc, ih]

theorem digitRuns_cons_not (c : Char) (t : Str) (hc : c.isDigit = false) :
    digitRuns (c :: t) = digitRuns t := by
  simp only [digitRuns, digitRunsCore, hc]
  simp

theorem digitRunsCore_snd (s : Str) :
    (digitRunsCore s).2 = digitRuns (s.dropWhile Char.isDigit) := by
  induction s with
  | nil => rfl
  | cons c t ih =>
    by_cases hc : c.isDigit = true
    · simpa [digitRunsCore, hc, List.dropWhile_cons] using ih
    · have hc' : c.isDigit = false := by simpa using hc
      simp [digitRunsCore, hc', List.dropWhile_cons, digitRuns]

/-- Unfolding lemma: a digit at the head starts a run consisting of the
whole digit prefix, followed by the runs of the remainder. -/
theorem digitRuns_cons_digit (c : Char) (t : Str) (hc : c.isDigit = true) :
    digitRuns (c :: t) =
      (c :: takeDigits t) :: digitRuns (t.dropWhile Char.isDigit) := by
  have h : digitRuns (c :: t)
      = (c :: (digitRunsCore t).1) :: (digitRunsCore t).2 := by
    simp only [digitRuns, digitRunsCore, hc]
    simp
  rw [h, digitRunsCore_fst, digitRunsCore_snd]

theorem extractBarcode_cons (c : Char) (t : Str) :
    extractBarcode (c :: t) =
      if 11 ≤ (takeDigits (c :: t)).length then some ((takeDigits (c :: t)).take 13)
      else extractBarcode t := rfl

theorem filter_digitRuns_dropWhile (u : Str) (h : (takeDigits u).length < 11) :
    (digitRuns u).filter (fun r => 11 ≤ r.length)
      = (digitRuns (u.dropWhile Char.isDigit)).filter (fun r => 11 ≤ r.length) := by
  cases u with
  | nil => rfl
  | cons d u' =>
    by_cases hd : d.isDigit = true
    · rw [digitRuns_cons_digit d u' hd]
      have hdw : (d :: u').dropWhile Char.isDigit = u'.dropWhile Char.isDigit := by
        simp [List.dropWhile_cons, hd]
      rw [hdw, List.filter_cons]
      have he : takeDigits (d :: u') = d :: takeDigits u' := by simp [takeDigits, hd]
      rw [he] at h
      have hlen : ¬ (11 ≤ (d :: takeDigits u').length) := by omega
      have h2 : (takeDigits u').length < 10 := by
        simp only [List.length_cons] at h
        omega
      simp [hlen, h2]
    · have hd' : d.isDigit = false := by simpa using hd
      simp [List.dropWhile_cons, hd']

/-- Key characterization of the code: `extractBarcode` returns the first
maximal digit run of length at least 11, truncated to its first 13 digits,
and `none` when every maximal digit run is shorter than 11 digits. -/
theorem extractBarcode_eq_firstLongRun (s : Str) :
    extractBarcode s =
      ((digitRuns s).filter (fun r => 11 ≤ r.length)).head?.map (fun r => r.take 13) := by
  induction s with
  | nil => rfl
  | cons c t ih =>
    by_cases hc : c.isDigit = true
    · rw [digitRuns_cons_digit c t hc, extractBarcode_cons]
      have hrun : takeDigits (c :: t) = c :: takeDigits t := by simp [takeDigits, hc]
      by_cases hlen : 11 ≤ (takeDigits (c :: t)).length
      · rw [if_pos hlen, hrun] at *
        rw [List.filter_cons, if_pos (by simpa using hlen)]
        simp
      · rw [if_neg hlen, ih]
        have hlen' : ¬ 11 ≤ (c :: takeDigits t).length := by rw [← hrun]; exact hlen
        rw [List.filter_cons, if_neg (by simpa using hlen')]
        have ht : (takeDigits t).length < 11 := by
          simp only [List.length_cons] at hlen'
          omega
        rw [filter_digitRuns_dropWhile t ht]
    · have hc' : c.isDigit = false := by simpa using hc
      rw [digitRuns_cons_not c t hc', extractBarcode_cons]
      have hrun : takeDigits (c :: t) = [] := by simp [takeDigits, hc']
      rw [hrun]
      simpa using ih

/-- C3 counterexample: the text `"123456789012345 12345678901"` contains a
maximal run of exactly 11 digits (`"12345678901"` — indeed its only maximal
run of length 11–13), yet `extractBarcode` does not return that run: it
returns `"1234567890123"`, the first 13 digits of the leading 15-digit run,
because the regex match starts at the leftmost position with at least 11
digits ahead. -/
theorem claim_C3_counterexample :
    ((digitRuns "123456789012345 12345678901".toList).filter
        (fun r => 11 ≤ r.length ∧ r.length ≤ 13)) = ["12345678901".toList]
    ∧ extractBarcode "123456789012345 12345678901".toList
        = some "1234567890123".toList
    ∧ "1234567890123".toList ≠ "12345678901".toList := by
  refine ⟨by decide, by decide, by decide⟩

/-- C3 (amended): `extractBarcode` returns the first maximal run of at
least 11 consecutive digits, truncated to its first 13 digits — hence a run
of exactly 11, 12 or 13 digits is returned verbatim exactly when it is the
first maximal run of at least 11 digits — and returns `null` for empty text
and for every text whose maximal digit runs are all shorter than 11 digits
(the filtered list is then empty and `head?.map` yields `none`). -/
theorem claim_C3 (s : Str) :
    extractBarcode s =
      ((digitRuns s).filter (fun r => 11 ≤ r.length)).head?.map
        (fun r => r.take 13) :=
  extractBarcode_eq_firstLongRun s

/-- C10: for every text whose first maximal digit run is longer than 13
digits, `extractBarcode` returns the first 13 digits of that run — in
particular neither `null` nor the whole run. -/
theorem claim_C10 (s : Str) (r : Str) (rs : List Str)
    (h : digitRuns s = r :: rs) (hr : 13 < r.length) :
    extractBarcode s = some (r.take 13) ∧ r.take 13 ≠ r := by
  have hmain := extractBarcode_eq_firstLongRun s
  rw [h, List.filter_cons, if_pos (by simp; omega)] at hmain
  refine ⟨by rw [hmain]; simp, ?_⟩
  intro he
  have hlen := congrArg List.length he
  rw [List.length_take] at hlen
  omega

/-- Witness for C10 at the concrete text `"12345678901234"` (14 digits). -/
theorem claim_C10_witness :
    extractBarcode "12345678901234".toList
        = some (("12345678901234".toList).take 13)
    ∧ ("12345678901234".toList).take 13 ≠ "12345678901234".toList :=
  claim_C10 "12345678901234".toList "12345678901234".toList []
    (by decide) (by decide)

/-! ## Stable sort model

Both revisions call `candidates.sort(cmp)` and then read the last element.
Node's `Array.prototype.sort` is a stable comparison sort (required since
ES2019); it is modelled here by a stable insertion sort parameterised by the
boolean relation `le a b` meaning "the comparator returns ≤ 0 on (a, b)". -/

/-- Insert `a` into `l` before the first element `b` with `le a b`
(stable insertion: an element coming earlier in the input is placed before
the elements it compares equal to). -/
def insB {α : Type} (le : α → α → Bool) (a : α) : List α → List α
  | [] => [a]
  | b :: l => if le a b then a :: b :: l else b :: insB le a l

/-- Stable insertion sort: the model of `Array.prototype.sort`. -/
def sortB {α : Type} (le : α → α → Bool) : List α → List α
  | [] => []
  | x :: xs => insB le x (sortB le xs)

theorem insB_ne_nil {α : Type} (le : α → α → Bool) (a : α) (l : List α) :
    insB le a l ≠ [] := by
  cases l with
  | nil => simp [insB]
  | cons b t =>
    simp only [insB]
    split <;> simp

theorem mem_insB {α : Type} (le : α → α → Bool) (a x : α) (l : List α) :
    x ∈ insB le a l ↔ x = a ∨ x ∈ l := by
  induction l with
  | nil => simp [insB]
  | cons b t ih =>
    simp only [insB]
    split
    · simp
    · simp only [List.mem_cons, ih]
      tauto

theorem mem_sortB {α : Type} (le : α → α → Bool) (x : α) (l : List α) :
    x ∈ sortB le l ↔ x ∈ l := by
  induction l with
  | nil => simp [sortB]
  | cons b t ih => simp [sortB, mem_insB, ih]

theorem sortB_eq_nil_iff {α : Type} (le : α → α → Bool) (l : List α) :
    sortB le l = [] ↔ l = [] := by
  cases l with
  | nil => simp [sortB]
  | cons b t => simp [sortB, insB_ne_nil]

theorem getLast?_cons_of_ne_nil {α : Type} (b : α) (l : List α) (h : l ≠ []) :
    (b :: l).getLast? = l.getLast? := by
  cases l with
  | nil => exact absurd rfl h
  | cons c t => rw [List.getLast?_cons_cons]

/-- Where the inserted element ends up relative to the last position: either
it is appended at the end, having compared greater to every element, or the
last element is unchanged and the inserted element stopped at some
element. -/
theorem insB_last {α : Type} (le : α → α → Bool) (a : α) (l : List α) :
    ((insB le a l).getLast? = some a ∧ ∀ b ∈ l, le a b = false)
    ∨ ((insB le a l).getLast? = l.getLast? ∧ ∃ b ∈ l, le a b = true) := by
  induction l with
  | nil => exact Or.inl ⟨rfl, by simp⟩
  | cons b t ih =>
    by_cases hab : le a b = true
    · refine Or.inr ?_
      simp only [insB, if_pos hab]
      exact ⟨List.getLast?_cons_cons .., ⟨b, List.mem_cons_self .., hab⟩⟩
    · have hab' : le a b = false := by simpa using hab
      have hne := insB_ne_nil le a t
      have hcons : (insB le a (b :: t)) = b :: insB le a t := by
        simp [insB, hab']
      rw [hcons, getLast?_cons_of_ne_nil b _ hne]
      rcases ih with ⟨h1, h2⟩ | ⟨h1, c, hc, hcle⟩
      · refine Or.inl ⟨h1, ?_⟩
        intro z hz
        rcases List.mem_cons.mp hz with rfl | hz'
        · exact hab'
        · exact h2 z hz'
      · have ht : t ≠ [] := by rintro rfl; simp at hc
        refine Or.inr ⟨?_, c, List.mem_cons_of_mem _ hc, hcle⟩
        rw [h1, getLast?_cons_of_ne_nil b t ht]

/-- The last element of the stable sort attains the maximum of any key `f`
that agrees with the comparison relation on the elements of the list. -/
theorem sortB_getLast?_max {α : Type} (le : α → α → Bool) (f : α → Nat)
    (l : List α)
    (hcmp : ∀ a ∈ l, ∀ b ∈ l, (le a b = true ↔ f a ≤ f b)) :
    ∀ m, (sortB le l).getLast? = some m → m ∈ l ∧ ∀ x ∈ l, f x ≤ f m := by
  induction l with
  | nil => intro m hm; simp [sortB] at hm
  | cons x xs ih =>
    intro m hm
    have hcmp' : ∀ a ∈ xs, ∀ b ∈ xs, (le a b = true ↔ f a ≤ f b) := by
      intro a ha b hb
      exact hcmp a (List.mem_cons_of_mem _ ha) b (List.mem_cons_of_mem _ hb)
    simp only [sortB] at hm
    rcases insB_last le x (sortB le xs) with ⟨h1, h2⟩ | ⟨h1, c, hc, hcle⟩
    · rw [h1] at hm
      have hxm : x = m := by injection hm
      subst hxm
      refine ⟨List.mem_cons_self .., ?_⟩
      intro y hy
      rcases List.mem_cons.mp hy with rfl | hy'
      · exact le_refl _
      · have hymem : y ∈ sortB le xs := (mem_sortB le y xs).mpr hy'
        have hfalse := h2 y hymem
        have hiff := hcmp x (List.mem_cons_self ..) y (List.mem_cons_of_mem _ hy')
        have hnot : ¬ (f x ≤ f y) := by
          intro hle
          have hxy := hiff.mpr hle
          rw [hfalse] at hxy
          exact Bool.noConfusion hxy
        omega
    · rw [h1] at hm
      obtain ⟨hm_mem, hmax⟩ := ih hcmp' m hm
      refine ⟨List.mem_cons_of_mem _ hm_mem, ?_⟩
      intro y hy
      rcases List.mem_cons.mp hy with rfl | hy'
      · have hcxs : c ∈ xs := (mem_sortB le c xs).mp hc
        have hyc : f y ≤ f c :=
          (hcmp y (List.mem_cons_self ..) c (List.mem_cons_of_mem _ hcxs)).mp hcle
        exact le_trans hyc (hmax c hcxs)
      · exact hmax y hy'

/-- When the comparator reports "equal" (`le` true) on every pair of the
list — e.g. all timestamps missing — the stable sort is the identity. -/
theorem sortB_of_all_true {α : Type} (le : α → α → Bool) (l : List α)
    (h : ∀ a ∈ l, ∀ b ∈ l, le a b = true) : sortB le l = l := by
  induction l with
  | nil => rfl
  | cons x xs ih =>
    have h' : ∀ a ∈ xs, ∀ b ∈ xs, le a b = true := by
      intro a ha b hb
      exact h a (List.mem_cons_of_mem _ ha) b (List.mem_cons_of_mem _ hb)
    simp only [sortB, ih h']
    cases xs with
    | nil => rfl
    | cons y ys =>
      have hxy : le x y = true :=
        h x (List.mem_cons_self ..) y (List.mem_cons_of_mem _ (List.mem_cons_self ..))
      simp [insB, hxy]

/-! ## Actors, reaction candidates and name resolution -/

/-- A chat-platform user object; each field may be absent (`undefined`) or
an empty string, both falsy in JavaScript. -/
structure Actor where
  last_name : Option Str
  username : Option Str
  first_name : Option Str
deriving DecidableEq

/-- The fallback literal `'Неизвестно'` ("Unknown"). -/
def unknownName : Str := "Неизвестно".toList

/-- JavaScript truthiness of a possibly-absent string: present and
non-empty. -/
def strTruthy (o : Option Str) : Bool := !(o.getD []).isEmpty

/-- Name resolution, identical in both revisions:
`actor.last_name || actor.username || actor.first_name || 'Неизвестно'`
(`server.js` writes the same chain with nested ternaries).  An absent actor
gives the fallback literal. -/
def resolveName (a : Option Actor) : Str :=
  match a with
  | none => unknownName
  | some actor =>
    if strTruthy actor.last_name then actor.last_name.getD []
    else if strTruthy actor.username then actor.username.getD []
    else if strTruthy actor.first_name then actor.first_name.getD []
    else unknownName

/-- The thumbs-up glyph U+1F44D, the literal of `part_000`. -/
def thumbsUp : Str := ['👍']

/-- The thumbs-down glyph U+1F44E, the literal of `part_000`. -/
def thumbsDown : Str := ['👎']

/-- The status literal `'Найдено'` ("Found"). -/
def found : Str := "Найдено".toList

/-- The status literal `'Не найдено'` ("NotFound"). -/
def notFound : Str := "Не найдено".toList

/-- A reaction candidate of the `part_000` revision: `ts := r.date || 0`
defaults a missing timestamp to 0. -/
structure CandidateP where
  emoji : Str
  name : Str
  ts : Nat
deriving DecidableEq

/-- The `part_000` sort comparator `(a,b) => a.ts - b.ts`: the comparator
is ≤ 0 exactly when `a.ts ≤ b.ts`. -/
def leP (a b : CandidateP) : Bool := a.ts ≤ b.ts

/-- `part_000`: sort candidates by timestamp ascending, take the last
element's name (`last?.name ?? 'Неизвестно'`). -/
def partLastReactor (cs : List CandidateP) : Str :=
  ((sortB leP cs).getLast?.map CandidateP.name).getD unknownName

/-- A reaction candidate of the `server.js` revision:
`ts := r.date || r.time || null` may be absent. -/
structure CandidateS where
  emoji : Str
  name : Str
  ts : Option Nat
deriving DecidableEq

/-- JavaScript truthiness of a possibly-absent number: present and
nonzero. -/
def tsTruthy : Option Nat → Bool
  | none => false
  | some n => n != 0

/-- The `server.js` sort comparator
`(a,b) => { if (a.ts && b.ts) return a.ts - b.ts; return 0; }`: pairs with
a missing (or zero) timestamp compare equal. -/
def leS (a b : CandidateS) : Bool :=
  if tsTruthy a.ts && tsTruthy b.ts then a.ts.getD 0 ≤ b.ts.getD 0 else true

/-- `server.js`: sort candidates with `leS`, take the last element's name
(`last ? last.name : 'Неизвестно'`). -/
def serverLastReactor (cs : List CandidateS) : Str :=
  ((sortB leS cs).getLast?.map CandidateS.name).getD unknownName

/-! ## The update object and `analyzeReactions` (`part_000`) -/

structure Chat where
  id : Option Int
deriving DecidableEq

/-- An entry of a `reactions` array:
`{ emoji, actor: { first_name, last_name, username }, date }`.  An absent
`emoji` is modelled as the empty string (for the containment checks and the
payload they are indistinguishable). -/
structure Reaction where
  emoji : Str
  actor : Option Actor
  date : Option Nat
deriving DecidableEq

structure Message where
  text : Option Str
  caption : Option Str
  reactions : Option (List Reaction)
  chat : Option Chat
  message_id : Option Nat
deriving DecidableEq

/-- The `update.reaction` object of the single-reaction-event shape. -/
structure SingleReaction where
  emoji : Str
deriving DecidableEq

/-- A Telegram update object, restricted to the fields the code reads.
`fromUser` models the JSON field `from`. -/
structure Update where
  message : Option Message
  edited_message : Option Message
  reaction : Option SingleReaction
  fromUser : Option Actor
  date : Option Nat
deriving DecidableEq

/-- `reactions.map(r => ({emoji: r.emoji, name: ..., ts: r.date || 0}))`. -/
def mkCandidate (r : Reaction) : CandidateP :=
  { emoji := r.emoji, name := resolveName r.actor, ts := r.date.getD 0 }

/-- The candidate list built by `analyzeReactions` in `part_000`:
`update.message?.reactions || update.edited_message?.reactions || []`
mapped to candidates; when that is empty and both `update.reaction` and
`update.from` are present, the single reaction event. -/
def candidatesOf (u : Update) : List CandidateP :=
  let reactions :=
    ((u.message.bind Message.reactions).orElse
      (fun _ => u.edited_message.bind Message.reactions)).getD []
  let cs := reactions.map mkCandidate
  if cs.isEmpty then
    match u.reaction, u.fromUser with
    | some sr, some a =>
        [{ emoji := sr.emoji, name := resolveName (some a), ts := u.date.getD 0 }]
    | _, _ => []
  else cs

/-- The result of `analyzeReactions`: `{ status, lastReactor }`. -/
structure Analysis where
  status : Option Str
  lastReactor : Str
deriving DecidableEq

/-- `analyzeReactions` of `part_000`: `null` when there are no candidates;
otherwise status `'Найдено'` if any candidate's emoji contains 👍, else
`'Не найдено'` if any contains 👎, else `null`; `lastReactor` is the last
candidate after the ascending stable sort by timestamp. -/
def analyzeReactions (u : Update) : Option Analysis :=
  let cs := candidatesOf u
  if cs.isEmpty then none
  else
    let hasLike := cs.any fun c => hasInfix thumbsUp c.emoji
    let hasDislike := cs.any fun c => hasInfix thumbsDown c.emoji
    some { status := if hasLike then some found
                     else if hasDislike then some notFound else none,
           lastReactor := partLastReactor cs }

/-- C7: every reaction entry is normalized into a candidate whose name is
resolved in the fixed preference order: last name if present (truthy),
otherwise username if present, otherwise first name if present, otherwise
the fallback literal `'Неизвестно'` ("Unknown"); an absent actor object
also gives the fallback. -/
theorem claim_C7 :
    (∀ r : Reaction, (mkCandidate r).name = resolveName r.actor) ∧
    (∀ a : Actor,
      (strTruthy a.last_name = true →
        resolveName (some a) = a.last_name.getD []) ∧
      (strTruthy a.last_name = false → strTruthy a.username = true →
        resolveName (some a) = a.username.getD []) ∧
      (strTruthy a.last_name = false → strTruthy a.username = false →
        strTruthy a.first_name = true →
        resolveName (some a) = a.first_name.getD []) ∧
      (strTruthy a.last_name = false → strTruthy a.username = false →
        strTruthy a.first_name = false →
        resolveName (some a) = unknownName)) ∧
    (resolveName none = unknownName) := by
  refine ⟨fun r => rfl, fun a => ⟨fun h1 => ?_, fun h1 h2 => ?_,
    fun h1 h2 h3 => ?_, fun h1 h2 h3 => ?_⟩, rfl⟩
  · simp [resolveName, h1]
  · simp [resolveName, h1, h2]
  · simp [resolveName, h1, h2, h3]
  · simp [resolveName, h1, h2, h3]

/-- Witness for C7: an actor with all three names resolves to the last
name; one without a last name resolves to the username. -/
theorem claim_C7_witness :
    resolveName (some ⟨some "Иванов".toList, some "vanya".toList,
        some "Иван".toList⟩)
      = (⟨some "Иванов".toList, some "vanya".toList,
          some "Иван".toList⟩ : Actor).last_name.getD []
    ∧ resolveName (some ⟨none, some "vanya".toList, some "Иван".toList⟩)
      = (⟨none, some "vanya".toList,
          some "Иван".toList⟩ : Actor).username.getD [] :=
  ⟨(claim_C7.2.1 _).1 (by decide),
   ((claim_C7.2.1 _).2.1) (by decide) (by decide)⟩

/-- C4 counterexample, in the `server.js` revision: with candidates
`A` (timestamp 100) and `B` (no timestamp), in that input order, the only
candidate with a defined timestamp — hence the one with the maximum such
timestamp — is `A`; but the comparator returns 0 on any pair involving a
missing timestamp, the stable sort keeps the input order, and the name of
`B`, not `A`, is returned. -/
theorem claim_C4_counterexample :
    serverLastReactor [⟨[], ['A'], some 100⟩, ⟨[], ['B'], none⟩]
        = (⟨[], ['B'], (none : Option Nat)⟩ : CandidateS).name
    ∧ serverLastReactor [⟨[], ['A'], some 100⟩, ⟨[], ['B'], none⟩]
        ≠ (⟨[], ['A'], some 100⟩ : CandidateS).name := by
  exact ⟨by decide, by decide⟩

/-- C4 (amended): (1) in the `part_000` revision, where a missing timestamp
defaults to 0, the returned name is always that of a candidate attaining
the maximum (defaulted) timestamp — in particular, when some candidate has
a defined nonzero timestamp, of a candidate with the maximum defined
timestamp; (2) in the `server.js` revision the maximum rule holds when
every candidate has a defined (truthy) timestamp and the maximum is
uniquely attained, but not in general with mixed missing timestamps (see
the counterexample); (3), (4) when no candidate has a timestamp, both
revisions return the name of the last candidate in input order. -/
theorem claim_C4 :
    (∀ cs : List CandidateP, cs ≠ [] →
      ∃ c ∈ cs, partLastReactor cs = c.name ∧ ∀ d ∈ cs, d.ts ≤ c.ts) ∧
    (∀ (cs : List CandidateS) (c : CandidateS), c ∈ cs →
      (∀ d ∈ cs, tsTruthy d.ts = true) →
      (∀ d ∈ cs, d ≠ c → d.ts.getD 0 < c.ts.getD 0) →
      serverLastReactor cs = c.name) ∧
    (∀ (cs : List CandidateS) (c : CandidateS), cs.getLast? = some c →
      (∀ d ∈ cs, d.ts = none) → serverLastReactor cs = c.name) ∧
    (∀ (cs : List CandidateP) (c : CandidateP), cs.getLast? = some c →
      (∀ d ∈ cs, d.ts = 0) → partLastReactor cs = c.name) := by
  refine ⟨?_, ?_, ?_, ?_⟩
  · intro cs hne
    have hs : sortB leP cs ≠ [] := by
      rw [Ne, sortB_eq_nil_iff]
      exact hne
    have hm := List.getLast?_eq_getLast_of_ne_nil hs
    obtain ⟨hmem, hmax⟩ := sortB_getLast?_max leP CandidateP.ts cs
      (by intro a _ b _; simp [leP]) _ hm
    exact ⟨_, hmem, by simp [partLastReactor, hm], hmax⟩
  · intro cs c hc htr huniq
    have hne : cs ≠ [] := by rintro rfl; simp at hc
    have hs : sortB leS cs ≠ [] := by
      rw [Ne, sortB_eq_nil_iff]
      exact hne
    have hm := List.getLast?_eq_getLast_of_ne_nil hs
    obtain ⟨hmem, hmax⟩ := sortB_getLast?_max leS (fun d => d.ts.getD 0) cs
      (by intro a ha b hb; simp [leS, htr a ha, htr b hb]) _ hm
    by_cases hmc : (sortB leS cs).getLast hs = c
    · rw [serverLastReactor, hm, hmc]
      rfl
    · exfalso
      have h1 := huniq _ hmem hmc
      have h2 := hmax c hc
      omega
  · intro cs c hlast hnone
    have hall : ∀ a ∈ cs, ∀ b ∈ cs, leS a b = true := by
      intro a ha b hb
      simp [leS, tsTruthy, hnone a ha]
    rw [serverLastReactor, sortB_of_all_true leS cs hall, hlast]
    rfl
  · intro cs c hlast hzero
    have hall : ∀ a ∈ cs, ∀ b ∈ cs, leP a b = true := by
      intro a ha b hb
      simp [leP, hzero a ha, hzero b hb]
    rw [partLastReactor, sortB_of_all_true leP cs hall, hlast]
    rfl

/-- Witness for C4: in both revisions, with timestamps 5 and 9 the
candidate with the larger timestamp is reported. -/
theorem claim_C4_witness :
    (∃ c ∈ ([⟨[], ['A'], 5⟩, ⟨[], ['B'], 9⟩] : List CandidateP),
      partLastReactor [⟨[], ['A'], 5⟩, ⟨[], ['B'], 9⟩] = c.name ∧
      ∀ d ∈ ([⟨[], ['A'], 5⟩, ⟨[], ['B'], 9⟩] : List CandidateP), d.ts ≤ c.ts)
    ∧ serverLastReactor [⟨[], ['A'], some 5⟩, ⟨[], ['B'], some 9⟩]
        = (⟨[], ['B'], some 9⟩ : CandidateS).name :=
  ⟨claim_C4.1 _ (by decide),
   claim_C4.2.1 _ (⟨[], ['B'], some 9⟩ : CandidateS) (by decide) (by decide)
     (by decide)⟩

/-- C2: for every event, when `analyzeReactions` (the current,
`part_000` revision) produces at least one candidate, the status is
`'Найдено'` ("Found") whenever some candidate's emoji contains the
thumbs-up glyph — regardless of the number or position of thumbs-down
candidates; otherwise it is `'Не найдено'` ("NotFound") whenever some
candidate's emoji contains the thumbs-down glyph; otherwise it is `null`.
With no candidates at all, `analyzeReactions` returns `null`. -/
theorem claim_C2 (u : Update) :
    (candidatesOf u = [] → analyzeReactions u = none) ∧
    (candidatesOf u ≠ [] →
      ∃ a, analyzeReactions u = some a ∧
        ((∃ c ∈ candidatesOf u, thumbsUp <:+: c.emoji) →
          a.status = some found) ∧
        (¬ (∃ c ∈ candidatesOf u, thumbsUp <:+: c.emoji) →
          (∃ c ∈ candidatesOf u, thumbsDown <:+: c.emoji) →
          a.status = some notFound) ∧
        (¬ (∃ c ∈ candidatesOf u, thumbsUp <:+: c.emoji) →
          ¬ (∃ c ∈ candidatesOf u, thumbsDown <:+: c.emoji) →
          a.status = none)) := by
  have hany : ∀ p : Str,
      (((candidatesOf u).any fun c => hasInfix p c.emoji) = true
        ↔ ∃ c ∈ candidatesOf u, p <:+: c.emoji) := by
    intro p
    simp [List.any_eq_true, hasInfix_iff]
  constructor
  · intro h
    simp [analyzeReactions, h]
  · intro h
    simp only [analyzeReactions]
    rw [if_neg (by simpa [List.isEmpty_iff] using h)]
    refine ⟨_, rfl, ?_, ?_, ?_⟩
    · intro hex
      have hu := (hany thumbsUp).mpr hex
      simp [hu]
    · intro hno hyes
      have hu : ((candidatesOf u).any fun c => hasInfix thumbsUp c.emoji)
          = false := by
        rw [← Bool.not_eq_true, hany]
        exact hno
      have hd := (hany thumbsDown).mpr hyes
      simp [hu, hd]
    · intro hno hnd
      have hu : ((candidatesOf u).any fun c => hasInfix thumbsUp c.emoji)
          = false := by
        rw [← Bool.not_eq_true, hany]
        exact hno
      have hd : ((candidatesOf u).any fun c => hasInfix thumbsDown c.emoji)
          = false := by
        rw [← Bool.not_eq_true, hany]
        exact hnd
      simp [hu, hd]

/-- A concrete update used as witness input: a message carrying an
11-digit barcode, a thumbs-down reaction at timestamp 5 and a thumbs-up
reaction at timestamp 9. -/
def updateWitness : Update :=
  { message := some
      { text := some "заказ 12345678901".toList,
        caption := none,
        reactions := some
          [ { emoji := thumbsDown,
              actor := some ⟨some "Петров".toList, none, none⟩,
              date := some 5 },
            { emoji := thumbsUp,
              actor := some ⟨some "Иванова".toList, none, none⟩,
              date := some 9 } ],
        chat := some ⟨some 77⟩,
        message_id := some 3 },
    edited_message := none,
    reaction := none,
    fromUser := none,
    date := none }

/-- Witness for C2: despite the thumbs-down entry (which even carries the
later position in no particular order), the thumbs-up entry forces status
`'Найдено'`. -/
theorem claim_C2_witness :
    ∃ a, analyzeReactions updateWitness = some a ∧ a.status = some found := by
  obtain ⟨a, ha, h1, h2, h3⟩ := (claim_C2 updateWitness).2 (by decide)
  exact ⟨a, ha, h1 (by decide)⟩

/-! ## The `/webhook` handler (`part_000`, current revision) -/

/-- The normalized payload `{barcode, status, user, chatId, messageId}`
POSTed to the Apps Script endpoint. -/
structure Payload where
  barcode : Str
  status : Str
  user : Str
  chatId : Option Int
  messageId : Option Nat
deriving DecidableEq

/-- The observable outcome of one webhook call: the HTTP status and body of
the response, and the list of outbound POSTs issued during the call. -/
structure WebhookResponse where
  status : Nat
  body : Str
  outbound : List Payload
deriving DecidableEq

/-- `x || null` on a possibly-absent integer (0 is falsy). -/
def jsOrNullInt : Option Int → Option Int
  | none => none
  | some v => if v = 0 then none else some v

/-- `x || null` on a possibly-absent natural (0 is falsy). -/
def jsOrNullNat : Option Nat → Option Nat
  | none => none
  | some v => if v = 0 then none else some v

/-- `message?.text || message?.caption || ''` where
`message = req.body.message || req.body.edited_message`. -/
def textOf (u : Update) : Str :=
  let m := u.message.orElse fun _ => u.edited_message
  let t := (m.bind Message.text).getD []
  if t.isEmpty then (m.bind Message.caption).getD [] else t

/-- The `/webhook` handler of `part_000`.  `headers` models the request
headers (the current revision never reads them); `outboundOk` models
whether the single outbound `fetch` to the Apps Script URL succeeds or
throws. -/
def webhook (_headers : List (Str × Str)) (u : Update) (outboundOk : Bool) :
    WebhookResponse :=
  let m := u.message.orElse fun _ => u.edited_message
  match extractBarcode (textOf u) with
  | none => { status := 200, body := "no barcode".toList, outbound := [] }
  | some barcode =>
    match analyzeReactions u with
    | none =>
        { status := 200, body := "no relevant reaction".toList,
          outbound := [] }
    | some analysis =>
      match analysis.status with
      | none =>
          { status := 200, body := "no relevant reaction".toList,
            outbound := [] }
      | some st =>
        let payload : Payload :=
          { barcode := barcode, status := st, user := analysis.lastReactor,
            chatId := jsOrNullInt ((m.bind Message.chat).bind Chat.id),
            messageId := jsOrNullNat (m.bind Message.message_id) }
        if outboundOk then
          { status := 200, body := "ok".toList, outbound := [payload] }
        else
          { status := 500, body := "error".toList, outbound := [payload] }

/-- The status produced by the reaction analysis, `analysis?.status`. -/
def statusOfUpdate (u : Update) : Option Str :=
  (analyzeReactions u).bind Analysis.status

/-- The payload the handler assembles for barcode `b` and status `st`. -/
def payloadOf (u : Update) (b st : Str) : Payload :=
  let m := u.message.orElse fun _ => u.edited_message
  { barcode := b, status := st,
    user := ((analyzeReactions u).map Analysis.lastReactor).getD unknownName,
    chatId := jsOrNullInt ((m.bind Message.chat).bind Chat.id),
    messageId := jsOrNullNat (m.bind Message.message_id) }

/-- C6: for every inbound webhook call — no barcode: HTTP 200, no outbound
call; barcode but no status from the reaction analysis: HTTP 200, no
outbound call; otherwise exactly one outbound POST with the normalized
payload, answering 200 when the outbound call succeeds and 500 when it
fails, with no retry in either case (the outbound list of the call is
exactly one payload long). -/
theorem claim_C6 (h : List (Str × Str)) (u : Update) (ok : Bool) :
    (extractBarcode (textOf u) = none →
      webhook h u ok = ⟨200, "no barcode".toList, []⟩) ∧
    (∀ b, extractBarcode (textOf u) = some b → statusOfUpdate u = none →
      webhook h u ok = ⟨200, "no relevant reaction".toList, []⟩) ∧
    (∀ b st, extractBarcode (textOf u) = some b →
      statusOfUpdate u = some st →
      (webhook h u ok).outbound = [payloadOf u b st] ∧
      (ok = true → (webhook h u ok).status = 200 ∧
        (webhook h u ok).body = "ok".toList) ∧
      (ok = false → (webhook h u ok).status = 500 ∧
        (webhook h u ok).body = "error".toList)) := by
  refine ⟨?_, ?_, ?_⟩
  · intro hb
    simp [webhook, hb]
  · intro b hb hst
    cases ha : analyzeReactions u with
    | none => simp [webhook, hb, ha]
    | some a =>
      rw [statusOfUpdate, ha, Option.some_bind] at hst
      simp [webhook, hb, ha, hst]
  · intro b st hb hst
    cases ha : analyzeReactions u with
    | none =>
      rw [statusOfUpdate, ha, Option.none_bind] at hst
      exact absurd hst (by simp)
    | some a =>
      rw [statusOfUpdate, ha, Option.some_bind] at hst
      refine ⟨?_, ?_, ?_⟩
      · cases ok <;> simp [webhook, hb, ha, hst, payloadOf]
      · rintro rfl
        simp [webhook, hb, ha, hst]
      · rintro rfl
        simp [webhook, hb, ha, hst]

/-- Witness for C6 at the concrete update `updateWitness` (barcode present,
thumbs-up reaction): one outbound payload, HTTP 200 on outbound success. -/
theorem claim_C6_witness :
    (webhook [] updateWitness true).outbound
        = [payloadOf updateWitness "12345678901".toList found]
    ∧ (webhook [] updateWitness true).status = 200 := by
  obtain ⟨hout, hok, hfail⟩ :=
    (claim_C6 [] updateWitness true).2.2 "12345678901".toList found
      (by decide) (by decide)
  exact ⟨hout, (hok rfl).1⟩

/-- C8: in the current revision (`part_000`) no authentication is
enforced: the handler's entire observable behaviour is independent of the
request headers — in particular of the `x-webhook-secret` header's value or
absence — and the response status is never 401. -/
theorem claim_C8 (h h' : List (Str × Str)) (u : Update) (ok : Bool) :
    webhook h u ok = webhook h' u ok ∧ (webhook h u ok).status ≠ 401 := by
  refine ⟨rfl, ?_⟩
  cases hb : extractBarcode (textOf u) with
  | none => simp [webhook, hb]
  | some b =>
    cases ha : analyzeReactions u with
    | none => simp [webhook, hb, ha]
    | some a =>
      cases hs : a.status with
      | none => simp [webhook, hb, ha, hs]
      | some st => cases ok <;> simp [webhook, hb, ha, hs]

/-- Witness for C8: concrete headers (one carrying an `x-webhook-secret`
value, one empty) produce identical responses, and the status is not
401. -/
theorem claim_C8_witness :
    webhook [] updateWitness true
        = webhook [("x-webhook-secret".toList, "s3cret".toList)]
            updateWitness true
    ∧ (webhook [] updateWitness true).status ≠ 401 :=
  claim_C8 [] [("x-webhook-secret".toList, "s3cret".toList)]
    updateWitness true

/-! ## The ledger endpoint (`doPost` in `apps_script.gs`)

Sheets are modelled as lists of rows of cell strings (the script coerces
every cell it reads with `String(x || '')` and trims it; the cells are
modelled by the string the script sees).  Row indices are 0-based as in the
script's `data` array: index 0 is the header row; columns are 0-based, so
B = 1, G = 6, I = 8. -/

abbrev Row := List Str
abbrev Sheet := List Row

/-- The sentinel status `'Проверить на МХ'` ("check at MX"). -/
def sentinel : Str := "Проверить на МХ".toList

/-- `String(row[i] || '').trim()`. -/
def cellAt (row : Row) (i : Nat) : Str := trim (row.getD i [])

/-- The script's row condition: non-empty trimmed B cell, B cell equal to
the incoming barcode, G cell equal to the sentinel. -/
def rowMatches (barcode : Str) (row : Row) : Bool :=
  !(cellAt row 1).isEmpty && cellAt row 1 == barcode
    && cellAt row 6 == sentinel

/-- `sheet.getRange(i+1, 7).setValue(status); sheet.getRange(i+1, 9).setValue(user)`:
write the status into column G (index 6) and the user into column I
(index 8). -/
def updateRow (status user : Str) (row : Row) : Row :=
  (row.set 6 status).set 8 user

/-- One sheet's pass of the `doPost` loop: sheets with fewer than two rows
are skipped; otherwise every data row (index ≥ 1) satisfying `rowMatches`
is updated, and the number of updated rows is returned. -/
def processSheet (barcode status user : Str) (sheet : Sheet) : Sheet × Nat :=
  if sheet.length < 2 then (sheet, 0)
  else
    match sheet with
    | [] => ([], 0)
    | header :: rows =>
      (header :: rows.map fun r =>
          if rowMatches barcode r then updateRow status user r else r,
       rows.countP (rowMatches barcode))

/-- The JSON body produced by `doPost`. -/
inductive DoPostResult
  | ok (updated : Nat)
  | err (msg : Str)
deriving DecidableEq

/-- The error message of the empty-field branch. -/
def noBarcodeMsg : Str := "no barcode or status".toList

/-- `doPost` after a successful parse and spreadsheet open: trims the three
fields, rejects empty barcode/status, otherwise scans every sheet and
returns the new workbook together with `{ok:true, updated}`. -/
def doPostBody (wb : List Sheet) (barcode status user : Str) :
    List Sheet × DoPostResult :=
  let b := trim barcode
  let s := trim status
  let u := trim user
  if b.isEmpty || s.isEmpty then (wb, .err noBarcodeMsg)
  else
    let results := wb.map (processSheet b s u)
    (results.map Prod.fst, .ok ((results.map Prod.snd).sum))

/-- The outcome of `JSON.parse(e.postData.contents)` and field coercion:
either an exception (caught by the `try`/`catch`) or the three string
fields. -/
inductive ParseResult
  | failure (msg : Str)
  | success (barcode status user : Str)
deriving DecidableEq

/-- The full `doPost`, with the `try`/`catch`: a parse exception or an
exception while opening the spreadsheet yields `{ok:false, error:...}`;
empty trimmed barcode/status yields the structured failure before the
spreadsheet is ever opened; otherwise the scan result. -/
def doPost (parsed : ParseResult) (openSheets : Except Str (List Sheet)) :
    DoPostResult :=
  match parsed with
  | .failure m => .err m
  | .success b s u =>
    if (trim b).isEmpty || (trim s).isEmpty then .err noBarcodeMsg
    else
      match openSheets with
      | .error m => .err m
      | .ok wb => (doPostBody wb b s u).2

/-- The claims' row condition: trimmed B cell equals the (trimmed) barcode
and trimmed G cell equals the sentinel.  Unlike `rowMatches` it has no
separate non-emptiness test — the two agree whenever the barcode is
non-empty. -/
def claimMatch (b : Str) (row : Row) : Prop :=
  trim (row.getD 1 []) = b ∧ trim (row.getD 6 []) = sentinel

instance instDecClaimMatch (b : Str) (row : Row) :
    Decidable (claimMatch b row) := by
  unfold claimMatch
  infer_instance

/-- The boolean form of `claimMatch`. -/
def claimMatchB (b : Str) (row : Row) : Bool :=
  (trim (row.getD 1 []) == b) && (trim (row.getD 6 []) == sentinel)

theorem claimMatchB_iff (b : Str) (row : Row) :
    claimMatchB b row = true ↔ claimMatch b row := by
  simp [claimMatchB, claimMatch]

theorem decide_claimMatch (b : Str) (row : Row) :
    decide (claimMatch b row) = claimMatchB b row := by
  rw [Bool.eq_iff_iff]
  simp [claimMatchB_iff]

theorem rowMatches_eq (b : Str) (row : Row) (hb : b ≠ []) :
    rowMatches b row = claimMatchB b row := by
  unfold rowMatches claimMatchB cellAt
  cases hB : (trim (row.getD 1 []) == b) with
  | false => simp [hB]
  | true =>
    have h1 : trim (row.getD 1 []) = b := by simpa using hB
    have hbe : (trim (row.getD 1 [])).isEmpty = false := by
      rw [h1]
      cases b with
      | nil => exact absurd rfl hb
      | cons c t => rfl
    simp only [hB, hbe, Bool.not_false, Bool.true_and, Bool.and_true]

theorem processSheet_snd (b s u : Str) (sheet : Sheet) (hb : b ≠ []) :
    (processSheet b s u sheet).2
      = sheet.tail.countP fun r => decide (claimMatch b r) := by
  have hfun : rowMatches b = fun r => decide (claimMatch b r) :=
    funext fun r => (rowMatches_eq b r hb).trans (decide_claimMatch b r).symm
  match sheet with
  | [] => rfl
  | [h] => simp [processSheet]
  | h :: r :: t =>
    simp only [processSheet, hfun, List.tail_cons]
    rw [if_neg (by simp)]

theorem updateRow_getElem (s u : Str) (row : Row) (j : Nat)
    (h6 : j ≠ 6) (h8 : j ≠ 8) : (updateRow s u row)[j]? = row[j]? := by
  unfold updateRow
  rw [List.getElem?_set_ne (by omega), List.getElem?_set_ne (by omega)]

theorem processSheet_fst_short (b s u : Str) (sheet : Sheet)
    (hs : sheet.length < 2) : (processSheet b s u sheet).1 = sheet := by
  simp [processSheet, hs]

theorem processSheet_fst_cons (b s u : Str) (h r : Row) (t : List Row) :
    (processSheet b s u (h :: r :: t)).1
      = h :: (r :: t).map
          (fun r0 => if rowMatches b r0 then updateRow s u r0 else r0) := by
  simp only [processSheet]
  rw [if_neg (by simp)]

theorem rowMatches_false_of_not_claimMatch (b : Str) (row : Row)
    (hb : b ≠ []) (hm : ¬ claimMatch b row) : rowMatches b row = false := by
  rw [rowMatches_eq b row hb]
  cases hcb : claimMatchB b row with
  | false => rfl
  | true => exact absurd ((claimMatchB_iff b row).mp hcb) hm

theorem processSheet_fst_getElem (b s u : Str) (hb : b ≠ []) (sheet : Sheet)
    (i : Nat) (row : Row) (hi : 1 ≤ i) (hrow : sheet[i]? = some row) :
    (processSheet b s u sheet).1[i]?
      = some (if claimMatch b row then updateRow s u row else row) := by
  match sheet, i with
  | [], i => simp at hrow
  | [h], i =>
    obtain ⟨i', rfl⟩ : ∃ i', i = i' + 1 := ⟨i - 1, by omega⟩
    simp at hrow
  | h :: r :: t, i =>
    obtain ⟨i', rfl⟩ : ∃ i', i = i' + 1 := ⟨i - 1, by omega⟩
    rw [processSheet_fst_cons, List.getElem?_cons_succ, List.getElem?_map]
    rw [List.getElem?_cons_succ] at hrow
    rw [hrow]
    by_cases hm : claimMatch b row
    · rw [if_pos hm]
      have hmb : rowMatches b row = true :=
        (rowMatches_eq b row hb).trans ((claimMatchB_iff b row).mpr hm)
      simp [hmb]
    · rw [if_neg hm]
      have hmb := rowMatches_false_of_not_claimMatch b row hb hm
      simp [hmb]

theorem processSheet_fst_frame (b s u : Str) (hb : b ≠ []) (sheet : Sheet) :
    (processSheet b s u sheet).1.length = sheet.length ∧
    (processSheet b s u sheet).1[0]? = sheet[0]? ∧
    ∀ i row, sheet[i]? = some row →
      ∃ row', (processSheet b s u sheet).1[i]? = some row' ∧
        (∀ j, j ≠ 6 → j ≠ 8 → row'[j]? = row[j]?) ∧
        ((i = 0 ∨ ¬ claimMatch b row) → row' = row) := by
  match sheet with
  | [] =>
    refine ⟨rfl, rfl, ?_⟩
    intro i row hrow
    simp at hrow
  | [h] =>
    have hfst := processSheet_fst_short b s u [h] (by simp)
    rw [hfst]
    refine ⟨rfl, rfl, ?_⟩
    intro i row hrow
    exact ⟨row, hrow, fun j _ _ => rfl, fun _ => rfl⟩
  | h :: r :: t =>
    rw [processSheet_fst_cons]
    refine ⟨by simp, rfl, ?_⟩
    intro i row hrow
    match i with
    | 0 =>
      rw [List.getElem?_cons_zero] at hrow
      have hrf : row = h := by
        injection hrow with hh
        exact hh.symm
      subst hrf
      exact ⟨row, rfl, fun j _ _ => rfl, fun _ => rfl⟩
    | i' + 1 =>
      rw [List.getElem?_cons_succ] at hrow
      refine ⟨if rowMatches b row then updateRow s u row else row, ?_, ?_, ?_⟩
      · rw [List.getElem?_cons_succ, List.getElem?_map, hrow]
        rfl
      · intro j h6 h8
        by_cases hmb : rowMatches b row = true
        · rw [if_pos hmb]
          exact updateRow_getElem s u row j h6 h8
        · rw [if_neg hmb]
      · intro hdisj
        rcases hdisj with h0 | hnm
        · exact absurd h0 (by omega)
        · rw [if_neg]
          rw [rowMatches_false_of_not_claimMatch b row hb hnm]
          simp

/-- C1: for a payload whose trimmed barcode and status are non-empty, the
returned body is `{ok:true, updated: N}` where `N` is the number of data
rows (row index ≥ 1) over all sheets whose trimmed B cell equals the
trimmed barcode and whose trimmed G cell equals the sentinel; and every
data row of every sheet becomes exactly `updateRow` of itself when it
matches that condition and stays unchanged otherwise — the scan does not
stop at the first match.  (The script's additional non-empty-B-cell test is
redundant here since a matching B cell equals the non-empty barcode.) -/
theorem claim_C1 (wb : List Sheet) (barcode status user : Str)
    (hb : trim barcode ≠ []) (hs : trim status ≠ []) :
    (doPostBody wb barcode status user).2 =
      DoPostResult.ok ((wb.map fun sh =>
        sh.tail.countP fun r => decide (claimMatch (trim barcode) r)).sum) ∧
    ∀ (si : Nat) (sh : Sheet) (i : Nat) (row : Row),
      wb[si]? = some sh → 1 ≤ i → sh[i]? = some row →
      ((doPostBody wb barcode status user).1[si]?.bind fun sh2 => sh2[i]?)
        = some (if claimMatch (trim barcode) row
            then updateRow (trim status) (trim user) row else row) := by
  have hbe : (trim barcode).isEmpty = false := by
    cases htb : trim barcode with
    | nil => exact absurd htb hb
    | cons c t => rfl
  have hse : (trim status).isEmpty = false := by
    cases hts : trim status with
    | nil => exact absurd hts hs
    | cons c t => rfl
  have hif : ((trim barcode).isEmpty || (trim status).isEmpty) = false := by
    rw [hbe, hse]
    rfl
  have hsnd : (Prod.snd ∘ processSheet (trim barcode) (trim status)
      (trim user))
      = fun sh => sh.tail.countP fun r => decide (claimMatch (trim barcode) r) :=
    funext fun sh => processSheet_snd _ _ _ sh hb
  constructor
  · simp only [doPostBody, hif, Bool.false_eq_true, if_false, List.map_map]
    rw [hsnd]
  · intro si sh i row hsi hi hrow
    simp only [doPostBody, hif, Bool.false_eq_true, if_false, List.map_map]
    rw [List.getElem?_map, hsi]
    simp only [Option.map_some', Option.some_bind, Function.comp_apply]
    exact processSheet_fst_getElem _ _ _ hb sh i row hi hrow

/-- C9: for every incoming payload — including those rejected for empty
fields — the ledger endpoint preserves the number of sheets, the length and
header row of every sheet, leaves every cell outside columns G (index 6)
and I (index 8) of every row unchanged, and leaves header rows and rows not
matching the barcode/sentinel condition entirely unchanged. -/
theorem claim_C9 (wb : List Sheet) (barcode status user : Str) :
    (doPostBody wb barcode status user).1.length = wb.length ∧
    ∀ (si : Nat) (sh : Sheet), wb[si]? = some sh →
      ∃ sh' : Sheet, (doPostBody wb barcode status user).1[si]? = some sh' ∧
        sh'.length = sh.length ∧ sh'[0]? = sh[0]? ∧
        ∀ (i : Nat) (row : Row), sh[i]? = some row →
          ∃ row' : Row, sh'[i]? = some row' ∧
            (∀ j : Nat, j ≠ 6 → j ≠ 8 → row'[j]? = row[j]?) ∧
            ((i = 0 ∨ ¬ claimMatch (trim barcode) row) → row' = row) := by
  by_cases hif : ((trim barcode).isEmpty || (trim status).isEmpty) = true
  · have h1 : (doPostBody wb barcode status user).1 = wb := by
      simp only [doPostBody, hif, if_true]
    rw [h1]
    exact ⟨rfl, fun si sh hsi =>
      ⟨sh, hsi, rfl, rfl, fun i row hrow =>
        ⟨row, hrow, fun j _ _ => rfl, fun _ => rfl⟩⟩⟩
  · have hif' : ((trim barcode).isEmpty || (trim status).isEmpty) = false := by
      simpa using hif
    have hb : trim barcode ≠ [] := by
      intro hh
      apply hif
      rw [hh]
      rfl
    have h1 : (doPostBody wb barcode status user).1
        = wb.map (Prod.fst ∘ processSheet (trim barcode) (trim status)
            (trim user)) := by
      simp only [doPostBody, hif', Bool.false_eq_true, if_false, List.map_map]
    rw [h1]
    refine ⟨by simp, ?_⟩
    intro si sh hsi
    obtain ⟨hl, h0, hrows⟩ :=
      processSheet_fst_frame (trim barcode) (trim status) (trim user) hb sh
    refine ⟨(processSheet (trim barcode) (trim status) (trim user) sh).1,
      ?_, hl, h0, hrows⟩
    rw [List.getElem?_map, hsi]
    rfl

/-- C5: `doPost` answers `{ok:true, updated}` exactly when parsing
succeeded, the trimmed barcode and status are non-empty and the spreadsheet
was opened without an exception; in every other case — parse exception,
empty trimmed barcode or status, or spreadsheet-access exception — it
answers the structured failure `{ok:false, error}`.  (The function is total:
every error is caught and converted, none is fatal.) -/
theorem claim_C5 (p : ParseResult) (a : Except Str (List Sheet)) :
    ((∃ n, doPost p a = DoPostResult.ok n) ↔
      (∃ b s u, p = ParseResult.success b s u ∧ trim b ≠ [] ∧ trim s ≠ [] ∧
        ∃ wb, a = Except.ok wb)) ∧
    ((∃ m, doPost p a = DoPostResult.err m) ↔
      ¬ (∃ b s u, p = ParseResult.success b s u ∧ trim b ≠ [] ∧
          trim s ≠ [] ∧ ∃ wb, a = Except.ok wb)) := by
  match p with
  | .failure m => simp [doPost]
  | .success b s u =>
    by_cases hbs : ((trim b).isEmpty || (trim s).isEmpty) = true
    · have hd : doPost (.success b s u) a = .err noBarcodeMsg := by
        simp [doPost, hbs]
      have hne : ¬ (trim b ≠ [] ∧ trim s ≠ []) := by
        rcases Bool.or_eq_true_iff.mp hbs with h | h
        · intro ⟨h1, _⟩
          exact h1 (List.isEmpty_iff.mp h)
        · intro ⟨_, h2⟩
          exact h2 (List.isEmpty_iff.mp h)
      constructor
      · rw [hd]
        constructor
        · rintro ⟨n, hn⟩
          exact DoPostResult.noConfusion hn
        · rintro ⟨b', s', u', heq, hb', hs', _⟩
          obtain ⟨rfl, rfl, rfl⟩ :
              b = b' ∧ s = s' ∧ u = u' := by
            injection heq with h1 h2 h3
            exact ⟨h1, h2, h3⟩
          exact (hne ⟨hb', hs'⟩).elim
      · rw [hd]
        constructor
        · rintro _ ⟨b', s', u', heq, hb', hs', _⟩
          obtain ⟨rfl, rfl, rfl⟩ :
              b = b' ∧ s = s' ∧ u = u' := by
            injection heq with h1 h2 h3
            exact ⟨h1, h2, h3⟩
          exact hne ⟨hb', hs'⟩
        · intro _
          exact ⟨noBarcodeMsg, rfl⟩
    · have hbs' : ((trim b).isEmpty || (trim s).isEmpty) = false := by
        simpa using hbs
      have hb : trim b ≠ [] := by
        intro hh
        apply hbs
        rw [hh]
        rfl
      have hs : trim s ≠ [] := by
        intro hh
        apply hbs
        rw [hh]
        simp
      match a with
      | .error m =>
        have hd : doPost (.success b s u) (.error m) = .err m := by
          simp [doPost, hbs']
        constructor
        · rw [hd]
          constructor
          · rintro ⟨n, hn⟩
            exact DoPostResult.noConfusion hn
          · rintro ⟨b', s', u', heq, _, _, wb, hwb⟩
            exact Except.noConfusion hwb
        · rw [hd]
          constructor
          · rintro _ ⟨b', s', u', heq, _, _, wb, hwb⟩
            exact Except.noConfusion hwb
          · intro _
            exact ⟨m, rfl⟩
      | .ok wb =>
        have hd : doPost (.success b s u) (.ok wb)
            = .ok (((wb.map (processSheet (trim b) (trim s) (trim u))).map
                Prod.snd).sum) := by
          simp [doPost, doPostBody, hbs']
        constructor
        · rw [hd]
          constructor
          · intro _
            exact ⟨b, s, u, rfl, hb, hs, wb, rfl⟩
          · intro _
            exact ⟨_, rfl⟩
        · rw [hd]
          constructor
          · rintro ⟨m, hm⟩
            exact DoPostResult.noConfusion hm
          · intro hcon
            exact absurd ⟨b, s, u, rfl, hb, hs, wb, rfl⟩ hcon

/-- A concrete data row whose B cell (index 1) holds the barcode with
surrounding spaces and whose G cell (index 6) holds the sentinel. -/
def rowWitness : Row :=
  ["1".toList, " 12345678901 ".toList, [], [], [], [], sentinel, [],
    "старый".toList]

/-- A concrete sheet: header, a matching row, and a row with the same
barcode but a different G cell. -/
def sheetWitness : Sheet :=
  [ ["№".toList, "Штрихкод".toList],
    rowWitness,
    ["2".toList, "12345678901".toList, [], [], [], [], "Готово".toList,
      [], []] ]

/-- A concrete workbook: the sheet above plus a one-row sheet that the
script skips. -/
def wbWitness : List Sheet := [sheetWitness, [["x".toList]]]

/-- Witness for C1 on the concrete workbook: the response counts exactly
the matching data rows, and the matching row at sheet 0, row 1 is updated
according to the condition. -/
theorem claim_C1_witness :
    (doPostBody wbWitness "12345678901".toList "Найдено".toList
        " Иванова ".toList).2
      = DoPostResult.ok ((wbWitness.map fun sh =>
          sh.tail.countP fun r =>
            decide (claimMatch (trim "12345678901".toList) r)).sum)
    ∧ ((doPostBody wbWitness "12345678901".toList "Найдено".toList
          " Иванова ".toList).1[0]?.bind fun sh2 => sh2[1]?)
        = some (if claimMatch (trim "12345678901".toList) rowWitness
            then updateRow (trim "Найдено".toList)
              (trim " Иванова ".toList) rowWitness
            else rowWitness) := by
  have h := claim_C1 wbWitness "12345678901".toList "Найдено".toList
    " Иванова ".toList (by decide) (by decide)
  exact ⟨h.1, h.2 0 sheetWitness 1 rowWitness (by decide) (by decide)
    (by decide)⟩

/-- Witness for C9 on the concrete workbook. -/
theorem claim_C9_witness :
    (doPostBody wbWitness "12345678901".toList "Найдено".toList
        "Иванова".toList).1.length = wbWitness.length
    ∧ ∃ sh' : Sheet,
        (doPostBody wbWitness "12345678901".toList "Найдено".toList
            "Иванова".toList).1[0]? = some sh' ∧
        sh'.length = sheetWitness.length ∧ sh'[0]? = sheetWitness[0]? ∧
        ∀ (i : Nat) (row : Row), sheetWitness[i]? = some row →
          ∃ row' : Row, sh'[i]? = some row' ∧
            (∀ j : Nat, j ≠ 6 → j ≠ 8 → row'[j]? = row[j]?) ∧
            ((i = 0 ∨ ¬ claimMatch (trim "12345678901".toList) row) →
              row' = row) :=
  ⟨(claim_C9 wbWitness "12345678901".toList "Найдено".toList
      "Иванова".toList).1,
   (claim_C9 wbWitness "12345678901".toList "Найдено".toList
      "Иванова".toList).2 0 sheetWitness (by decide)⟩

/-- Witness for C5: a well-formed payload against an open workbook yields
`{ok:true}`; an empty barcode yields `{ok:false}`. -/
theorem claim_C5_witness :
    (∃ n, doPost (ParseResult.success "12345678901".toList
        "Найдено".toList "Иванова".toList) (Except.ok wbWitness)
      = DoPostResult.ok n)
    ∧ (∃ m, doPost (ParseResult.success "   ".toList "Найдено".toList
        "Иванова".toList) (Except.ok wbWitness)
      = DoPostResult.err m) :=
  ⟨(claim_C5 _ _).1.mpr
      ⟨_, _, _, rfl, by decide, by decide, wbWitness, rfl⟩,
   (claim_C5 _ _).2.mpr
      (by
        rintro ⟨b', s', u', heq, hb', _, _⟩
        obtain ⟨rfl, rfl, rfl⟩ :
            "   ".toList = b' ∧ "Найдено".toList = s'
              ∧ "Иванова".toList = u' := by
          injection heq with h1 h2 h3
          exact ⟨h1, h2, h3⟩
        exact hb' (by decide))⟩
